import Mathlib

/-!
Verification of `slippage_analysis.py`: the slippage estimator
`compute_slippage` (a greedy walk over ask-side order-book levels with an
early `break`, returning a NaN sentinel when the book is too shallow) and
the guard in `analyze_slippage` that skips the power-law fit when fewer
than 3 valid samples are available.

Floats are modelled as rationals; the NaN "unfilled" sentinel is modelled
as `none : Option ℚ`; a raised Python exception is modelled as
`Except.error`.
-/

/-- One resting quote of the order book: a row of the `order_book`
DataFrame, holding `ask_price_1` and `ask_volume_1`. -/
structure Level where
  price : ℚ
  volume : ℚ
deriving DecidableEq, Repr

/-- The loop of `compute_slippage` (lines 17–25): iterate over the levels
carrying `(total_cost, remaining)`; at each level fill
`qty = min remaining volume`, accumulate `qty * price`, decrement
`remaining`, and break as soon as `remaining <= 0`.  Returns the final
`(total_cost, remaining)` pair. -/
def walk : List Level → ℚ → ℚ → ℚ × ℚ
  | [], total_cost, remaining => (total_cost, remaining)
  | l :: ls, total_cost, remaining =>
    let qty := min remaining l.volume
    let total_cost' := total_cost + qty * l.price
    let remaining' := remaining - qty
    if remaining' ≤ 0 then (total_cost', remaining')
    else walk ls total_cost' remaining'

/-- `compute_slippage(order_book, x, mid_price)` (lines 12–32): walk the
book starting from `total_cost = 0`, `remaining = x`; if the order could
not be fully filled (`remaining > 0`) return the NaN sentinel (`none`),
otherwise return `total_cost / x - mid_price`. -/
def compute_slippage (order_book : List Level) (x mid_price : ℚ) : Option ℚ :=
  let r := walk order_book 0 x
  if r.2 > 0 then none
  else some (r.1 / x - mid_price)

/-- The same fold carried to the end of the level sequence, without the
early `break`: the non-short-circuiting reference for the loop. -/
def walkFull : List Level → ℚ → ℚ → ℚ × ℚ
  | [], total_cost, remaining => (total_cost, remaining)
  | l :: ls, total_cost, remaining =>
    let qty := min remaining l.volume
    walkFull ls (total_cost + qty * l.price) (remaining - qty)

/-- `compute_slippage` with the loop replaced by the non-short-circuiting
fold `walkFull`. -/
def compute_slippage_full (order_book : List Level) (x mid_price : ℚ) : Option ℚ :=
  let r := walkFull order_book 0 x
  if r.2 > 0 then none
  else some (r.1 / x - mid_price)

/-- Brute-force reference cost: `Σ fill_i * price_i` over the fully
expanded level sequence, where `fill_i = min remaining_i volume_i` is
taken greedily in sequence order. -/
def refCost : List Level → ℚ → ℚ
  | [], _ => 0
  | l :: ls, remaining =>
    min remaining l.volume * l.price + refCost ls (remaining - min remaining l.volume)

/-- Total available volume of a snapshot. -/
def totalVolume (order_book : List Level) : ℚ :=
  (order_book.map Level.volume).sum

/-- A well-formed snapshot level: `price > 0` and `volume >= 0`. -/
def wfLevel (l : Level) : Prop := 0 < l.price ∧ 0 ≤ l.volume

/-- The hard failure of the fitting step. -/
inductive FitError where
  | FitDivergence
deriving DecidableEq, Repr

/-- Outcome of the fitting stage of `analyze_slippage`: either the guard
reported "Not enough data points for fitting." and returned early, or a
power-law fit `(alpha, delta)` was produced. -/
inductive FitStageResult where
  | notEnoughData
  | fitted (alpha delta : ℚ)
deriving DecidableEq, Repr

/-- The fitting stage of `analyze_slippage` (lines 80–86): given the
valid (non-NaN) samples `(X_fit, Y_fit)` and the external nonlinear
solver `curveFit` (scipy's `curve_fit`, which may fail), check
`len(Y_fit) < 3`; if so print the message and return early (a normal
return, modelled `Except.ok .notEnoughData`), otherwise run the solver. -/
def fitStage (curveFit : List (ℚ × ℚ) → Except FitError (ℚ × ℚ))
    (samples : List (ℚ × ℚ)) : Except FitError FitStageResult :=
  if samples.length < 3 then Except.ok FitStageResult.notEnoughData
  else (curveFit samples).map (fun p => FitStageResult.fitted p.1 p.2)

/-- A solver that always reports `FitDivergence`; used to show the guard
returns before the solver can raise. -/
def alwaysDivergeSolver : List (ℚ × ℚ) → Except FitError (ℚ × ℚ) :=
  fun _ => Except.error FitError.FitDivergence

/-- The concrete two-level book of the spec's scenarios:
`[{price:100.05, volume:50}, {price:100.10, volume:100}]`. -/
def exampleBook : List Level :=
  [⟨2001/20, 50⟩, ⟨1001/10, 100⟩]

/-! ### Basic lemmas about the walk -/

/-- One fill never exceeds `remaining`, so `remaining` stays nonnegative. -/
lemma walk_remaining_nonneg (ls : List Level) (c r : ℚ) (hr : 0 ≤ r) :
    0 ≤ (walk ls c r).2 := by
  induction ls generalizing c r with
  | nil => simpa [walk]
  | cons l ls ih =>
    simp only [walk]
    have hq : min r l.volume ≤ r := min_le_left _ _
    by_cases h : r - min r l.volume ≤ 0
    · simp only [h, if_true]
      linarith
    · simp only [h, if_false]
      exact ih _ _ (by linarith)

/-- `remaining` decreases by at most the total volume of the levels
walked, with or without the break. -/
lemma walk_remaining_lower (ls : List Level) (hv : ∀ l ∈ ls, 0 ≤ l.volume)
    (c r : ℚ) : r - totalVolume ls ≤ (walk ls c r).2 := by
  induction ls generalizing c r with
  | nil => simp [walk, totalVolume]
  | cons l ls ih =>
    simp only [walk]
    have hvl : 0 ≤ l.volume := hv l (List.mem_cons_self _ _)
    have hvsum : 0 ≤ totalVolume ls := by
      have : ∀ q ∈ ls.map Level.volume, 0 ≤ q := by
        intro q hq
        obtain ⟨a, ha, rfl⟩ := List.mem_map.mp hq
        exact hv a (List.mem_cons_of_mem _ ha)
      exact List.sum_nonneg this
    have hq : min r l.volume ≤ l.volume := min_le_right _ _
    have htv : totalVolume (l :: ls) = l.volume + totalVolume ls := by
      simp [totalVolume]
    by_cases h : r - min r l.volume ≤ 0
    · simp only [h, if_true]
      rw [htv]
      linarith
    · simp only [h, if_false]
      have := ih (fun a ha => hv a (List.mem_cons_of_mem _ ha))
        (c + min r l.volume * l.price) (r - min r l.volume)
      rw [htv]
      linarith

/-- Walking with `remaining = 0` over nonnegative volumes fills nothing. -/
lemma walkFull_zero (ls : List Level) (hv : ∀ l ∈ ls, 0 ≤ l.volume) (c : ℚ) :
    walkFull ls c 0 = (c, 0) := by
  induction ls generalizing c with
  | nil => simp [walkFull]
  | cons l ls ih =>
    have hvl : 0 ≤ l.volume := hv l (List.mem_cons_self _ _)
    have hmin : min (0 : ℚ) l.volume = 0 := min_eq_left hvl
    simp only [walkFull, hmin]
    simpa using ih (fun a ha => hv a (List.mem_cons_of_mem _ ha)) c

/-- The broken walk agrees with the full fold on nonnegative volumes when
`remaining` starts nonnegative. -/
lemma walk_eq_walkFull (ls : List Level) (hv : ∀ l ∈ ls, 0 ≤ l.volume)
    (c r : ℚ) (hr : 0 ≤ r) : walk ls c r = walkFull ls c r := by
  induction ls generalizing c r with
  | nil => simp [walk, walkFull]
  | cons l ls ih =>
    simp only [walk, walkFull]
    have hq : min r l.volume ≤ r := min_le_left _ _
    have htail : ∀ a ∈ ls, 0 ≤ a.volume :=
      fun a ha => hv a (List.mem_cons_of_mem _ ha)
    by_cases h : r - min r l.volume ≤ 0
    · simp only [h, if_true]
      have hzero : r - min r l.volume = 0 := le_antisymm h (by linarith)
      rw [hzero, walkFull_zero ls htail]
    · simp only [h, if_false]
      exact ih htail _ _ (by linarith)

/-- The accumulated cost of the full fold is the accumulator plus the
brute-force reference cost. -/
lemma walkFull_cost (ls : List Level) (c r : ℚ) :
    (walkFull ls c r).1 = c + refCost ls r := by
  induction ls generalizing c r with
  | nil => simp [walkFull, refCost]
  | cons l ls ih =>
    simp only [walkFull, refCost]
    rw [ih]
    ring

/-- Asking for nothing costs nothing over nonnegative volumes. -/
lemma refCost_zero (ls : List Level) (hv : ∀ l ∈ ls, 0 ≤ l.volume) :
    refCost ls 0 = 0 := by
  induction ls with
  | nil => simp [refCost]
  | cons l ls ih =>
    have hvl : 0 ≤ l.volume := hv l (List.mem_cons_self _ _)
    have hmin : min (0 : ℚ) l.volume = 0 := min_eq_left hvl
    simp only [refCost, hmin, sub_self]
    rw [ih (fun a ha => hv a (List.mem_cons_of_mem _ ha))]
    ring

/-- A fully coverable order is fully filled by the full fold. -/
lemma walkFull_remaining_zero (ls : List Level) (hv : ∀ l ∈ ls, 0 ≤ l.volume)
    (c r : ℚ) (hr : 0 ≤ r) (hle : r ≤ totalVolume ls) :
    (walkFull ls c r).2 = 0 := by
  induction ls generalizing c r with
  | nil =>
    simp only [totalVolume, List.map_nil, List.sum_nil] at hle
    simp [walkFull]
    linarith
  | cons l ls ih =>
    have hvl : 0 ≤ l.volume := hv l (List.mem_cons_self _ _)
    have htail : ∀ a ∈ ls, 0 ≤ a.volume :=
      fun a ha => hv a (List.mem_cons_of_mem _ ha)
    simp only [walkFull]
    by_cases h : r ≤ l.volume
    · have hmin : min r l.volume = r := min_eq_left h
      rw [hmin]
      simpa using congrArg Prod.snd (walkFull_zero ls htail _)
    · push_neg at h
      have hmin : min r l.volume = l.volume := min_eq_right h.le
      rw [hmin]
      have htv : totalVolume (l :: ls) = l.volume + totalVolume ls := by
        simp [totalVolume]
      exact ih htail _ _ (by linarith) (by rw [htv] at hle; linarith)

/-- Under the spec's preconditions (nonnegative volumes, positive order
size covered by the book), `compute_slippage` returns exactly the
brute-force average fill price minus mid-price. -/
lemma compute_slippage_eq_refCost (book : List Level)
    (hv : ∀ l ∈ book, 0 ≤ l.volume) (x mid : ℚ) (hx : 0 < x)
    (hcov : x ≤ totalVolume book) :
    compute_slippage book x mid = some (refCost book x / x - mid) := by
  have hwalk : walk book 0 x = (refCost book x, 0) := by
    rw [walk_eq_walkFull book hv 0 x hx.le]
    have h2 : (walkFull book 0 x).2 = 0 :=
      walkFull_remaining_zero book hv 0 x hx.le hcov
    have h1 : (walkFull book 0 x).1 = refCost book x := by
      rw [walkFull_cost]; ring
    rw [Prod.ext_iff]
    exact ⟨h1, h2⟩
  simp [compute_slippage, hwalk]

/-- When the book is too shallow the walk never breaks and ends with
positive `remaining`, so `compute_slippage` returns the sentinel. -/
lemma compute_slippage_unfilled (book : List Level)
    (hv : ∀ l ∈ book, 0 ≤ l.volume) (x mid : ℚ)
    (hshallow : totalVolume book < x) :
    compute_slippage book x mid = none := by
  unfold compute_slippage
  have := walk_remaining_lower book hv 0 x
  have hpos : 0 < (walk book 0 x).2 := by linarith
  simp [hpos]

/-- Marginal-cost bound: over levels whose prices all dominate `p` and
whose volumes are nonnegative, extending the greedy fill from `y1` to
`y2` costs at least `p` per extra unit. -/
lemma refCost_diff_le (p : ℚ) (ls : List Level)
    (hp : ∀ l ∈ ls, p ≤ l.price) (hv : ∀ l ∈ ls, 0 ≤ l.volume)
    (y1 y2 : ℚ) (h0 : 0 ≤ y1) (h12 : y1 ≤ y2) (h2 : y2 ≤ totalVolume ls) :
    p * (y2 - y1) + refCost ls y1 ≤ refCost ls y2 := by
  induction ls generalizing y1 y2 with
  | nil =>
    simp only [totalVolume, List.map_nil, List.sum_nil] at h2
    have : y1 = y2 := le_antisymm h12 (by linarith)
    subst this
    simp [refCost]
  | cons l ls ih =>
    have hpl : p ≤ l.price := hp l (List.mem_cons_self _ _)
    have hvl : 0 ≤ l.volume := hv l (List.mem_cons_self _ _)
    have hptail : ∀ a ∈ ls, p ≤ a.price :=
      fun a ha => hp a (List.mem_cons_of_mem _ ha)
    have hvtail : ∀ a ∈ ls, 0 ≤ a.volume :=
      fun a ha => hv a (List.mem_cons_of_mem _ ha)
    have htv : totalVolume (l :: ls) = l.volume + totalVolume ls := by
      simp [totalVolume]
    rw [htv] at h2
    simp only [refCost]
    by_cases hy2 : y2 ≤ l.volume
    · have hm1 : min y1 l.volume = y1 := min_eq_left (le_trans h12 hy2)
      have hm2 : min y2 l.volume = y2 := min_eq_left hy2
      rw [hm1, hm2, sub_self, sub_self, refCost_zero ls hvtail]
      have := mul_le_mul_of_nonneg_right hpl (by linarith : 0 ≤ y2 - y1)
      nlinarith
    · push_neg at hy2
      by_cases hy1 : y1 ≤ l.volume
      · have hm1 : min y1 l.volume = y1 := min_eq_left hy1
        have hm2 : min y2 l.volume = l.volume := min_eq_right hy2.le
        rw [hm1, hm2, sub_self, refCost_zero ls hvtail]
        have hbase := ih hptail hvtail 0 (y2 - l.volume) le_rfl
          (by linarith) (by linarith)
        rw [refCost_zero ls hvtail] at hbase
        have := mul_le_mul_of_nonneg_right hpl
          (by linarith : 0 ≤ l.volume - y1)
        nlinarith
      · push_neg at hy1
        have hm1 : min y1 l.volume = l.volume := min_eq_right hy1.le
        have hm2 : min y2 l.volume = l.volume := min_eq_right hy2.le
        rw [hm1, hm2]
        have := ih hptail hvtail (y1 - l.volume) (y2 - l.volume)
          (by linarith) (by linarith) (by linarith)
        nlinarith

/-- Cross-multiplied monotonicity of the average greedy fill price: on a
price-sorted book with nonnegative volumes,
`x2 * refCost(x1) ≤ x1 * refCost(x2)` for `0 ≤ x1 ≤ x2 ≤ total volume`. -/
lemma refCost_cross (ls : List Level)
    (hsort : ls.Pairwise (fun a b => a.price ≤ b.price))
    (hv : ∀ l ∈ ls, 0 ≤ l.volume) (x1 x2 : ℚ) (h0 : 0 ≤ x1) (h12 : x1 ≤ x2)
    (h2 : x2 ≤ totalVolume ls) :
    x2 * refCost ls x1 ≤ x1 * refCost ls x2 := by
  induction ls generalizing x1 x2 with
  | nil =>
    simp only [totalVolume, List.map_nil, List.sum_nil] at h2
    have : x1 = x2 := le_antisymm h12 (by linarith)
    subst this
    simp [refCost]
  | cons l ls ih =>
    rw [List.pairwise_cons] at hsort
    obtain ⟨hpl, hsort'⟩ := hsort
    have hvl : 0 ≤ l.volume := hv l (List.mem_cons_self _ _)
    have hvtail : ∀ a ∈ ls, 0 ≤ a.volume :=
      fun a ha => hv a (List.mem_cons_of_mem _ ha)
    have htv : totalVolume (l :: ls) = l.volume + totalVolume ls := by
      simp [totalVolume]
    rw [htv] at h2
    simp only [refCost]
    by_cases hx2 : x2 ≤ l.volume
    · have hm1 : min x1 l.volume = x1 := min_eq_left (le_trans h12 hx2)
      have hm2 : min x2 l.volume = x2 := min_eq_left hx2
      rw [hm1, hm2, sub_self, sub_self, refCost_zero ls hvtail]
      ring_nf
      nlinarith
    · push_neg at hx2
      by_cases hx1 : x1 ≤ l.volume
      · have hm1 : min x1 l.volume = x1 := min_eq_left hx1
        have hm2 : min x2 l.volume = l.volume := min_eq_right hx2.le
        rw [hm1, hm2, sub_self, refCost_zero ls hvtail]
        have hbase := refCost_diff_le l.price ls hpl hvtail 0 (x2 - l.volume)
          le_rfl (by linarith) (by linarith)
        rw [refCost_zero ls hvtail] at hbase
        nlinarith
      · push_neg at hx1
        have hm1 : min x1 l.volume = l.volume := min_eq_right hx1.le
        have hm2 : min x2 l.volume = l.volume := min_eq_right hx2.le
        rw [hm1, hm2]
        have hih := ih hsort' hvtail (x1 - l.volume) (x2 - l.volume)
          (by linarith) (by linarith) (by linarith)
        have hdiff := refCost_diff_le l.price ls hpl hvtail
          (x1 - l.volume) (x2 - l.volume) (by linarith) (by linarith)
          (by linarith)
        nlinarith [mul_le_mul_of_nonneg_left hdiff hvl]

/-- Inserting a zero-volume level anywhere into the walk changes nothing
while `remaining` is still positive. -/
lemma walk_insertIdx_zero_volume (p0 : ℚ) :
    ∀ (n : ℕ) (ls : List Level) (c r : ℚ), 0 < r →
      walk (ls.insertIdx n ⟨p0, 0⟩) c r = walk ls c r := by
  intro n
  induction n with
  | zero =>
    intro ls c r hr
    rw [List.insertIdx_zero]
    simp only [walk]
    have hmin : min r (0 : ℚ) = 0 := min_eq_right hr.le
    simp [hmin, not_le.mpr hr]
  | succ n ih =>
    intro ls c r hr
    cases ls with
    | nil => rw [List.insertIdx_succ_nil]
    | cons l ls =>
      rw [List.insertIdx_succ_cons]
      simp only [walk]
      by_cases h : r - min r l.volume ≤ 0
      · simp only [h, if_true]
      · simp only [h, if_false]
        push_neg at h
        exact ih ls _ _ h

/-! ### The claims -/

/-- C1: for every well-formed snapshot whose total volume covers the
order and every positive order size, `compute_slippage` returns a defined
(non-sentinel) value equal to the brute-force greedy reference
`(Σ fill_i * price_i) / order_size - mid_price`, including the boundary
case `order_size = total volume`. -/
theorem claim_C1_full_fill (book : List Level) (hwf : ∀ l ∈ book, wfLevel l)
    (x mid : ℚ) (hx : 0 < x) (hcov : x ≤ totalVolume book) :
    compute_slippage book x mid = some (refCost book x / x - mid) :=
  compute_slippage_eq_refCost book (fun l hl => (hwf l hl).2) x mid hx hcov

/-- Witness for C1 at the boundary case: the book
`[{price:1, volume:1}, {price:2, volume:1}]` with order size 2 (= total
volume) yields `(1*1 + 1*2)/2 - 0 = 3/2`. -/
theorem claim_C1_witness :
    compute_slippage [⟨1, 1⟩, ⟨2, 1⟩] 2 0 = some (3/2) := by
  have h := claim_C1_full_fill [⟨1, 1⟩, ⟨2, 1⟩]
    (by intro l hl; fin_cases hl <;> exact ⟨by norm_num, by norm_num⟩)
    2 0 (by norm_num) (by norm_num [totalVolume])
  rw [h]
  norm_num [refCost, min_def]

/-- C2: whenever the total available volume is strictly below the order
size, `compute_slippage` returns the unfilled sentinel `none`, which is
distinct from every numeric value (in particular from `some 0`); on the
spec's concrete book with order size 200 the total volume is 150 and the
sentinel is returned. -/
theorem claim_C2_unfilled :
    (∀ (book : List Level) (x mid : ℚ), (∀ l ∈ book, wfLevel l) → 0 < x →
      totalVolume book < x → compute_slippage book x mid = none)
    ∧ (∀ q : ℚ, (none : Option ℚ) ≠ some q)
    ∧ (∀ mid : ℚ, totalVolume exampleBook = 150 ∧
        compute_slippage exampleBook 200 mid = none) := by
  refine ⟨?_, ?_, ?_⟩
  · intro book x mid hwf _ hshallow
    exact compute_slippage_unfilled book (fun l hl => (hwf l hl).2) x mid hshallow
  · intro q h
    exact Option.noConfusion h
  · intro mid
    refine ⟨by norm_num [totalVolume, exampleBook], ?_⟩
    exact compute_slippage_unfilled exampleBook
      (by intro l hl; fin_cases hl <;> norm_num [exampleBook])
      200 mid (by norm_num [totalVolume, exampleBook])

/-- Witness for C2: a one-level book of volume 1 cannot fill an order of
size 5, and `none` differs from `some 0`. -/
theorem claim_C2_witness :
    compute_slippage [⟨1, 1⟩] 5 0 = none ∧ (none : Option ℚ) ≠ some 0 :=
  ⟨claim_C2_unfilled.1 [⟨1, 1⟩] 5 0
      (by intro l hl; fin_cases hl; exact ⟨by norm_num, by norm_num⟩)
      (by norm_num) (by norm_num [totalVolume]),
    claim_C2_unfilled.2.1 0⟩

/-- C3 counterexample: with fewer than 3 valid samples the fitting stage
returns normally (`Except.ok .notEnoughData`, the printed skip), even
when the solver would report `FitDivergence`; no failure is raised or
propagated, refuting the claim that a hard `FitDivergence` failure
reaches the caller. -/
theorem claim_C3_counterexample :
    fitStage alwaysDivergeSolver [(10, 1), (20, 2)] =
      Except.ok FitStageResult.notEnoughData ∧
    (Except.ok FitStageResult.notEnoughData :
        Except FitError FitStageResult) ≠
      Except.error FitError.FitDivergence := by
  constructor
  · rfl
  · intro h
    exact Except.noConfusion h

/-- C3 (amended): if fewer than 3 valid samples are supplied, the fit is
never attempted: the guard reports the condition and the stage returns
early with `.notEnoughData`, for every solver — in particular it never
returns a fitted (degenerate or otherwise) result and never raises. -/
theorem claim_C3_guard (curveFit : List (ℚ × ℚ) → Except FitError (ℚ × ℚ))
    (samples : List (ℚ × ℚ)) (h : samples.length < 3) :
    fitStage curveFit samples = Except.ok FitStageResult.notEnoughData := by
  simp [fitStage, h]

/-- Witness for the amended C3: one sample is fewer than three, and the
stage returns the skip outcome. -/
theorem claim_C3_witness :
    fitStage alwaysDivergeSolver [(10, 1)] =
      Except.ok FitStageResult.notEnoughData :=
  claim_C3_guard alwaysDivergeSolver [(10, 1)] (by norm_num)

/-- C4: on a price-sorted well-formed snapshot, slippage is non-decreasing
in the order size, for all `0 < x1 ≤ x2 ≤ total volume`. -/
theorem claim_C4_monotone (book : List Level)
    (hsort : book.Pairwise (fun a b => a.price ≤ b.price))
    (hwf : ∀ l ∈ book, wfLevel l) (x1 x2 mid : ℚ)
    (h1 : 0 < x1) (h12 : x1 ≤ x2) (h2 : x2 ≤ totalVolume book) :
    ∃ s1 s2, compute_slippage book x1 mid = some s1 ∧
      compute_slippage book x2 mid = some s2 ∧ s1 ≤ s2 := by
  have hv : ∀ l ∈ book, 0 ≤ l.volume := fun l hl => (hwf l hl).2
  have hx2 : 0 < x2 := lt_of_lt_of_le h1 h12
  refine ⟨refCost book x1 / x1 - mid, refCost book x2 / x2 - mid,
    compute_slippage_eq_refCost book hv x1 mid h1 (le_trans h12 h2),
    compute_slippage_eq_refCost book hv x2 mid hx2 h2, ?_⟩
  have hcross := refCost_cross book hsort hv x1 x2 h1.le h12 h2
  have hdiv : refCost book x1 / x1 ≤ refCost book x2 / x2 := by
    rw [div_le_div_iff₀ h1 hx2]
    nlinarith
  linarith

/-- Witness for C4 on the sorted book `[{1,1},{2,1}]` with sizes 1 ≤ 2. -/
theorem claim_C4_witness :
    ∃ s1 s2, compute_slippage [⟨1, 1⟩, ⟨2, 1⟩] 1 0 = some s1 ∧
      compute_slippage [⟨1, 1⟩, ⟨2, 1⟩] 2 0 = some s2 ∧ s1 ≤ s2 :=
  claim_C4_monotone [⟨1, 1⟩, ⟨2, 1⟩]
    (by norm_num [List.pairwise_cons])
    (by intro l hl; fin_cases hl <;> exact ⟨by norm_num, by norm_num⟩)
    1 2 0 (by norm_num) (by norm_num) (by norm_num [totalVolume])

/-- C5: on a well-formed snapshot the early-terminating loop returns
exactly the same result as the fold carried to the end of the level
sequence: the `break` is an optimization, not a semantic change. -/
theorem claim_C5_break_refinement (book : List Level)
    (hv : ∀ l ∈ book, 0 ≤ l.volume) (x mid : ℚ) (hx : 0 < x) :
    compute_slippage book x mid = compute_slippage_full book x mid := by
  unfold compute_slippage compute_slippage_full
  rw [walk_eq_walkFull book hv 0 x hx.le]

/-- Witness for C5 on the spec's concrete book at order size 120. -/
theorem claim_C5_witness :
    compute_slippage exampleBook 120 100 =
      compute_slippage_full exampleBook 120 100 :=
  claim_C5_break_refinement exampleBook
    (by intro l hl; fin_cases hl <;> norm_num [exampleBook])
    120 100 (by norm_num)

/-- C6 counterexample: on the spec's book with order size 120 and
mid-price 100 the code returns exactly `19/240 = 0.0791666…`, which is
not approximately `0.0808` (it differs by more than `1/1000`). -/
theorem claim_C6_counterexample :
    compute_slippage exampleBook 120 100 = some (19/240) ∧
    ¬ |(19 : ℚ)/240 - 808/10000| ≤ 1/1000 := by
  constructor
  · norm_num [compute_slippage, walk, exampleBook, min_def]
  · rw [abs_le]
    norm_num

/-- C6 (amended): on the spec's book with mid-price 100 and order size
120, `compute_slippage` fills 50 at 100.05 and 70 at 100.10 and returns
`(50*100.05 + 70*100.10)/120 - 100`, which is exactly `19/240 ≈ 0.0792`
(not `0.0808`). -/
theorem claim_C6_concrete :
    compute_slippage exampleBook 120 100 =
      some ((50 * (2001/20) + 70 * (1001/10)) / 120 - 100) ∧
    (50 * ((2001 : ℚ)/20) + 70 * (1001/10)) / 120 - 100 = 19/240 := by
  constructor
  · norm_num [compute_slippage, walk, exampleBook, min_def]
  · norm_num

/-- C7: inserting a zero-volume level (of any price) at any position
leaves the result of `compute_slippage` unchanged, for every positive
order size. -/
theorem claim_C7_zero_volume_skipped (book : List Level) (n : ℕ) (p0 : ℚ)
    (x mid : ℚ) (hx : 0 < x) :
    compute_slippage (book.insertIdx n ⟨p0, 0⟩) x mid =
      compute_slippage book x mid := by
  unfold compute_slippage
  rw [walk_insertIdx_zero_volume p0 n book 0 x hx]

/-- Witness for C7: inserting a zero-volume level at price 7 in the
middle of the spec's book does not change the slippage at size 120. -/
theorem claim_C7_witness :
    compute_slippage (exampleBook.insertIdx 1 ⟨7, 0⟩) 120 100 =
      compute_slippage exampleBook 120 100 :=
  claim_C7_zero_volume_skipped exampleBook 1 7 120 100 (by norm_num)

/-- C9: for a negative order size on a non-empty well-formed book, the
first fill is `min(remaining, volume) = remaining < 0`, the loop breaks
immediately, and the result is `levels[0].price - mid_price` — not the
sentinel and not an error. -/
theorem claim_C9_negative_order (l : Level) (ls : List Level) (x mid : ℚ)
    (hx : x < 0) (hv : 0 ≤ l.volume) :
    compute_slippage (l :: ls) x mid = some (l.price - mid) := by
  have hmin : min x l.volume = x := min_eq_left (le_trans hx.le hv)
  have hx0 : x ≠ 0 := ne_of_lt hx
  simp only [compute_slippage, walk, hmin, sub_self, zero_add]
  norm_num
  rw [mul_comm, mul_div_assoc, div_self hx0, mul_one]

/-- Witness for C9: an order of size −2 on the book `[{price:5, volume:3}]`
returns `5 - 1 = 4`, not the sentinel. -/
theorem claim_C9_witness :
    compute_slippage [⟨5, 3⟩] (-2) 1 = some 4 := by
  have h := claim_C9_negative_order ⟨5, 3⟩ [] (-2) 1 (by norm_num) (by norm_num)
  rw [h]
  norm_num

/-- C10: on an empty level sequence every positive order size leaves
`remaining = order_size > 0` after zero iterations, and the unfilled
sentinel is returned. -/
theorem claim_C10_empty_book (x mid : ℚ) (hx : 0 < x) :
    compute_slippage [] x mid = none := by
  simp [compute_slippage, walk, hx]

/-- Witness for C10 at order size 1. -/
theorem claim_C10_witness : compute_slippage [] 1 0 = none :=
  claim_C10_empty_book 1 0 (by norm_num)
